import Mathlib

/-!
Verification of the patch engine in `.github/scripts/patch_ios_project.py`
(repository HautlyS/Vortex-iMAGE).

Text is modelled as `List Char`.  Python's `str` operations used by the
script (`in`, `str.replace`, `str.lower`, `str.lstrip`) are embedded as
executable functions on `List Char`; the three `re.sub` calls of
`patch_tauri_lib_swift` and the `DEVELOPMENT_TEAM` regex of
`patch_pbxproj` are embedded as deterministic scanners (every character
class in those patterns is followed by a literal outside the class, so
Python's leftmost, greedy, non-overlapping `re.sub` semantics coincide
with maximal-munch scanning and need no backtracking).

Property lists are modelled structurally (`PValue`, `PDict`), mirroring
`plistlib.load` output restricted to mapping roots, and `patch_info_plist`
is embedded with explicit state passing; paths on which the Python code
raises an uncaught `TypeError` (a non-mapping `NSAppTransportSecurity`
value, or a non-mapping `NSExceptionDomains` value that does not contain
`localhost`) are modelled by the `InfoResult.raise` constructor.
-/

/-- Text content, one Python `str`, as a list of characters. -/
abbrev Chars := List Char

/-- `isLeadOf pat s` holds iff `pat` occurs at the very start of `s`. -/
def isLeadOf : Chars → Chars → Bool
  | [], _ => true
  | _ :: _, [] => false
  | a :: as, b :: bs => a == b && isLeadOf as bs

/-- Python's substring containment `pat in s`. -/
def hasSub (pat : Chars) : Chars → Bool
  | [] => isLeadOf pat []
  | c :: cs => isLeadOf pat (c :: cs) || hasSub pat cs

/-- Python's `str.lower` (ASCII-faithful). -/
def lowerL (s : Chars) : Chars := s.map Char.toLower

/-- Python's `\s` / `str.lstrip()` whitespace (ASCII range). -/
def isPySpace (c : Char) : Bool :=
  c == ' ' || c == '\t' || c == '\n' || c == '\r' || c == '\x0b' || c == '\x0c'

/-- `len(line) - len(line.lstrip())`: number of leading whitespace chars. -/
def pyLstripCount (l : Chars) : Nat := (l.takeWhile isPySpace).length

/-- Scanner state used to embed a regular-expression match: the remaining
input together with the number of characters consumed so far. -/
abbrev MSt := Chars × Nat

/-- Consume a literal. -/
def litK (pat : Chars) (st : MSt) : Option MSt :=
  if isLeadOf pat st.1 then some (st.1.drop pat.length, st.2 + pat.length) else none

/-- Consume `\s+` (at least one whitespace character, maximal munch). -/
def sp1K (st : MSt) : Option MSt :=
  match st.1 with
  | c :: _ =>
    if isPySpace c then
      some (st.1.dropWhile isPySpace, st.2 + (st.1.takeWhile isPySpace).length)
    else none
  | [] => none

/-- Consume `\s*` (maximal munch). -/
def sp0K (st : MSt) : Option MSt :=
  some (st.1.dropWhile isPySpace, st.2 + (st.1.takeWhile isPySpace).length)

/-- Consume `[c ∈ P]*` (maximal munch over a character class). -/
def clsK (p : Char → Bool) (st : MSt) : Option MSt :=
  some (st.1.dropWhile p, st.2 + (st.1.takeWhile p).length)

/-- Consume `[c ∈ P]+` (at least one character of the class). -/
def cls1K (p : Char → Bool) (st : MSt) : Option MSt :=
  match st.1 with
  | c :: _ =>
    if p c then some (st.1.dropWhile p, st.2 + (st.1.takeWhile p).length)
    else none
  | [] => none

/-- `re.sub` driver: scan left to right; at each position try the matcher
`m` (returning the length of the match); on success emit `mk` applied to
the matched text and resume after the match, otherwise emit the current
character and move one position right.  `fuel` bounds the recursion; it is
always instantiated with the length of the input, which suffices because
every matcher used below consumes at least one character. -/
def subAll (m : Chars → Option Nat) (mk : Chars → Chars) : Nat → Chars → Chars
  | 0, s => s
  | _ + 1, [] => []
  | f + 1, c :: cs =>
    match m (c :: cs) with
    | some n => mk ((c :: cs).take n) ++ subAll m mk f ((c :: cs).drop n)
    | none => c :: subAll m mk f cs

/-- One `re.sub pattern rep s` application. -/
def pySub (m : Chars → Option Nat) (mk : Chars → Chars) (s : Chars) : Chars :=
  subAll m mk s.length s

/-- Python's `str.replace old new` (all non-overlapping occurrences,
leftmost first); the script never calls it with an empty `old`. -/
def replAll (pat rep s : Chars) : Chars :=
  pySub (fun t => if pat.isEmpty then none else
                  if isLeadOf pat t then some pat.length else none)
    (fun _ => rep) s

/-! ## `patch_pbxproj` (src lines 15–60) -/

/-- The trigger of the shell-script rule (src line 27):
`'shellScript' in line and 'tauri' in line.lower()`. -/
def shellTrigger (l : Chars) : Bool :=
  hasSub ("shellScript".toList) l && hasSub ("tauri".toList) (lowerL l)

/-- The fixed tail of the no-op replacement line (src line 29). -/
def noopTail : Chars := ("shellScript = \"echo \\\"Rust library pre-built\\\"\";\n").toList

/-- The replacement line built at src lines 28–29:
indentation spaces followed by the no-op script assignment. -/
def noopShellLine (indent : Nat) : Chars :=
  List.replicate indent ' ' ++ noopTail

/-- Shell-script neutralization step (src lines 26–30). -/
def shellStep (l : Chars) : Chars × Bool :=
  if shellTrigger l then (noopShellLine (pyLstripCount l), true) else (l, false)

/-- The `simple_replacements` table (src lines 33–41), verbatim. -/
def simpleRepl : List (Chars × Chars) :=
  [ (("CODE_SIGN_IDENTITY = \"Apple Development\"").toList, ("CODE_SIGN_IDENTITY = \"\"").toList),
    (("CODE_SIGN_IDENTITY = \"-\"").toList, ("CODE_SIGN_IDENTITY = \"\"").toList),
    (("CODE_SIGN_IDENTITY = \"iPhone Developer\"").toList, ("CODE_SIGN_IDENTITY = \"\"").toList),
    (("CODE_SIGNING_REQUIRED = YES").toList, ("CODE_SIGNING_REQUIRED = NO").toList),
    (("CODE_SIGNING_ALLOWED = YES").toList, ("CODE_SIGNING_ALLOWED = NO").toList),
    (("CODE_SIGN_STYLE = Automatic").toList, ("CODE_SIGN_STYLE = Manual").toList),
    (("ProvisioningStyle = Automatic").toList, ("ProvisioningStyle = Manual").toList) ]

/-- The `for old, new in simple_replacements` loop (src lines 43–46). -/
def simpleStep (l : Chars) : Chars × Bool :=
  simpleRepl.foldl
    (fun acc pr => if hasSub pr.1 acc.1 then (replAll pr.1 pr.2 acc.1, true) else acc)
    (l, false)

/-- Matcher for the regex `DEVELOPMENT_TEAM\s*=\s*[^;]+;` (src line 50).
Since `\s ⊆ [^;]`, the backtracking tail `\s*[^;]+;` matches exactly one
or more non-semicolon characters up to and including the first `;`. -/
def devTeamM (s : Chars) : Option Nat :=
  (some (s, 0)
    >>= litK ("DEVELOPMENT_TEAM".toList) >>= sp0K >>= litK ("=".toList)
    >>= cls1K (fun c => c != ';') >>= litK (";".toList)).map (·.2)

/-- `re.sub(r'DEVELOPMENT_TEAM\s*=\s*[^;]+;', 'DEVELOPMENT_TEAM = "";', line)`. -/
def devTeamSub (l : Chars) : Chars :=
  pySub devTeamM (fun _ => ("DEVELOPMENT_TEAM = \"\";").toList) l

/-- The trigger of the team rule (src line 49):
`'DEVELOPMENT_TEAM' in line and '""' not in line`. -/
def teamTrigger (l : Chars) : Bool :=
  hasSub ("DEVELOPMENT_TEAM".toList) l && !hasSub ("\"\"".toList) l

/-- `DEVELOPMENT_TEAM` clearing step (src lines 49–53); the flag is set
only when the regex actually changed the line. -/
def teamStep (l : Chars) : Chars × Bool :=
  if teamTrigger l then
    let nl := devTeamSub l
    if nl = l then (l, false) else (nl, true)
  else (l, false)

/-- One iteration of the `for line in lines` loop of `patch_pbxproj`
(src lines 25–55): the rewritten line plus whether it changed. -/
def patchLineM (l : Chars) : Chars × Bool :=
  let s1 := shellStep l
  let s2 := simpleStep s1.1
  let s3 := teamStep s2.1
  (s3.1, s1.2 || s2.2 || s3.2)

/-- The rewritten form of one descriptor line. -/
def patchLine (l : Chars) : Chars := (patchLineM l).1

/-- Result of one `patch_pbxproj` call: the written lines, the `modified`
flag, and whether a write occurred.  The write at src lines 57–58 is
outside any condition, so `wrote` is unconditionally `true`. -/
structure PbxRun where
  newLines : List Chars
  modified : Bool
  wrote : Bool
deriving DecidableEq, Repr

/-- `patch_pbxproj` on a line list (src lines 15–60). -/
def patchPbxproj (doc : List Chars) : PbxRun :=
  { newLines := doc.map patchLine
    modified := doc.any (fun l => (patchLineM l).2)
    wrote := true }

/-! ## `patch_tauri_lib_swift` (src lines 203–257): the content rewrite -/

/-- Matcher for `private\s+let\s+devUrl\s*=\s*"[^"]*"` (src lines 229–233). -/
def libDevUrlM (s : Chars) : Option Nat :=
  (some (s, 0)
    >>= litK ("private".toList) >>= sp1K >>= litK ("let".toList) >>= sp1K
    >>= litK ("devUrl".toList) >>= sp0K >>= litK ("=".toList) >>= sp0K
    >>= litK ("\"".toList) >>= clsK (fun c => c != '"') >>= litK ("\"".toList)).map (·.2)

/-- Matcher for `let\s+useDevUrl\s*=\s*true` (src lines 236–240). -/
def libUseDevUrlM (s : Chars) : Option Nat :=
  (some (s, 0)
    >>= litK ("let".toList) >>= sp1K >>= litK ("useDevUrl".toList) >>= sp0K
    >>= litK ("=".toList) >>= sp0K >>= litK ("true".toList)).map (·.2)

/-- Matcher for `(if\s+let\s+devUrl\s*=\s*devUrl\s*\{[^}]*\})` (src lines 243–247). -/
def libIfDevUrlM (s : Chars) : Option Nat :=
  (some (s, 0)
    >>= litK ("if".toList) >>= sp1K >>= litK ("let".toList) >>= sp1K
    >>= litK ("devUrl".toList) >>= sp0K >>= litK ("=".toList) >>= sp0K
    >>= litK ("devUrl".toList) >>= sp0K >>= litK ("\x7b".toList)
    >>= clsK (fun c => c != '\x7d') >>= litK ("\x7d".toList)).map (·.2)

/-- The content transformation of `patch_tauri_lib_swift` on one file:
the three `re.sub` calls in source order. -/
def patchTauriLib (content : Chars) : Chars :=
  let c1 := pySub libDevUrlM (fun _ => ("private let devUrl: String? = nil").toList) content
  let c2 := pySub libUseDevUrlM (fun _ => ("let useDevUrl = false").toList) c1
  pySub libIfDevUrlM
    (fun mt => ("/* Release build - dev server disabled\n").toList ++ mt ++ ("\n*/").toList) c2

/-! ## `patch_info_plist` (src lines 62–110): structured plist model -/

/-- A decoded property-list value (`plistlib` restricted to the value
kinds the script manipulates: strings, booleans, arrays, dictionaries). -/
inductive PValue where
  | s (v : String)
  | b (v : Bool)
  | arr (vs : List PValue)
  | d (m : List (String × PValue))

/-- A decoded mapping (Python `dict`): insertion-ordered key/value pairs. -/
abbrev PDict := List (String × PValue)

/-- Python `dict` lookup. -/
def dictGet : PDict → String → Option PValue
  | [], _ => none
  | (k', v) :: rest, k => if k' = k then some v else dictGet rest k

/-- Python `key in dict`. -/
def dictHas (m : PDict) (k : String) : Bool := (dictGet m k).isSome

/-- Python `dict[key] = value`: update in place, or append a new key. -/
def dictSet : PDict → String → PValue → PDict
  | [], k, v => [(k, v)]
  | (k', v') :: rest, k, v =>
    if k' = k then (k', v) :: rest else (k', v') :: dictSet rest k v

/-- Python truthiness of a plist value (`not ats[...]`). -/
def pyTruthy : PValue → Bool
  | .s v => !(v = "")
  | .b v => v
  | .arr vs => !vs.isEmpty
  | .d m => !m.isEmpty

/-- Outcome of `patch_info_plist` after a successful decode: either the
final mapping plus the `modified` flag, or an uncaught `TypeError`
(`raise`), which the script does not handle. -/
inductive InfoResult where
  | ok (p : PDict) (modified : Bool)
  | raise

/-- The `NSLocalNetworkUsageDescription` text (src line 77). -/
def descText : String :=
  "This app requires local network access for development and debugging purposes."

/-- The `NSBonjourServices` list (src line 82). -/
def bonjourV : PValue := .arr [.s "_http._tcp.", .s "_https._tcp."]

/-- The `localhost` exception dictionary (src lines 99–102). -/
def lhExc : PValue :=
  .d [("NSExceptionAllowsInsecureHTTPLoads", .b true), ("NSIncludesSubdomains", .b true)]

/-- The transport-security block of `patch_info_plist` (src lines 89–103),
acting on the `NSAppTransportSecurity` mapping `a` with the `modified`
flag `m` accumulated so far.  `none` models the uncaught `TypeError`
Python raises when `NSExceptionDomains` holds a non-mapping value that
fails the `'localhost' not in ...` test and is then subscripted. -/
def atsStep1 (a : PDict) (m : Bool) : PDict × Bool :=
  match dictGet a "NSAllowsLocalNetworking" with
  | some v => if pyTruthy v then (a, m) else (dictSet a "NSAllowsLocalNetworking" (.b true), true)
  | none => (dictSet a "NSAllowsLocalNetworking" (.b true), true)

/-- The `localhost` block (src lines 98–103) on the mapping `a2` after
the `NSExceptionDomains` key has been ensured (src lines 95–96). -/
def atsStep2core (a2 : PDict) (m : Bool) : Option (PDict × Bool) :=
  match dictGet a2 "NSExceptionDomains" with
  | some (.d e) =>
    if dictHas e "localhost" then some (a2, m)
    else some (dictSet a2 "NSExceptionDomains" (.d (dictSet e "localhost" lhExc)), true)
  | some (.s v) =>
    if hasSub ("localhost".toList) v.toList then some (a2, m) else none
  | some (.arr vs) =>
    if vs.any (fun x => match x with | .s y => y = "localhost" | _ => false)
    then some (a2, m) else none
  | some (.b _) => none
  | none => none

/-- The `localhost` exception-domain part (src lines 94–103). -/
def atsStep2 (b : PDict) (m : Bool) : Option (PDict × Bool) :=
  atsStep2core
    (if dictHas b "NSExceptionDomains" then b else dictSet b "NSExceptionDomains" (.d [])) m

/-- Composition of the two transport-security sub-steps. -/
def patchATS (a : PDict) (m : Bool) : Option (PDict × Bool) :=
  atsStep2 (atsStep1 a m).1 (atsStep1 a m).2

/-- The first three key-presence steps of `patch_info_plist` (src lines
73–87): ensure the usage description, the Bonjour list and the (possibly
empty) `NSAppTransportSecurity` entry; returns the updated mapping and
the `modified` flag accumulated so far (creating an empty
`NSAppTransportSecurity` does not set the flag, src lines 86–87). -/
def infoPrelude (p : PDict) : PDict × Bool :=
  let m1 := !dictHas p "NSLocalNetworkUsageDescription"
  let p1 := if dictHas p "NSLocalNetworkUsageDescription" then p
            else dictSet p "NSLocalNetworkUsageDescription" (.s descText)
  let m2 := m1 || !dictHas p1 "NSBonjourServices"
  let p2 := if dictHas p1 "NSBonjourServices" then p1
            else dictSet p1 "NSBonjourServices" bonjourV
  let p3 := if dictHas p2 "NSAppTransportSecurity" then p2
            else dictSet p2 "NSAppTransportSecurity" (.d [])
  (p3, m2)

/-- `patch_info_plist` on a successfully decoded mapping (src lines
73–110).  A non-mapping `NSAppTransportSecurity` value always raises
`TypeError` in Python before the function finishes (`in` on a bool is a
type error; on a string or list the chain reaches an item assignment or
string subscript), modelled by `.raise`. -/
def patchInfoPlist (p : PDict) : InfoResult :=
  match dictGet (infoPrelude p).1 "NSAppTransportSecurity" with
  | some (.d a) =>
    match patchATS a (infoPrelude p).2 with
    | some (af, mf) => .ok (dictSet (infoPrelude p).1 "NSAppTransportSecurity" (.d af)) mf
    | none => .raise
  | some _ => .raise
  | none => .raise

/-- Whether `patch_info_plist` writes the file back (src lines 105–107):
only when the mapping changed. -/
def infoWritten : InfoResult → Bool
  | .ok _ m => m
  | .raise => false

/-! ## The session (`main`, src lines 287–328) -/

/-- Per-file outcome of the `Info.plist` loop: a decode failure is caught
and the file skipped (src lines 66–71); a patch that raises crashes the
whole process; otherwise the file is written or left alone. -/
inductive FileOutcome where
  | decodeSkipped
  | wrote
  | unchanged
  | raised
deriving DecidableEq, Repr

/-- Processing of one discovered `Info.plist`, given its decode result. -/
def processPlistFile : Except String PDict → FileOutcome
  | .error _ => .decodeSkipped
  | .ok p =>
    match patchInfoPlist p with
    | .raise => .raised
    | .ok _ m => if m then .wrote else .unchanged

/-- The `for plist in plist_files` loop: outcomes of the processed files
plus whether an uncaught exception aborted the loop (remaining files are
then never processed). -/
def runPlists : List (Except String PDict) → List FileOutcome × Bool
  | [] => ([], false)
  | f :: fs =>
    match processPlistFile f with
    | .raised => ([FileOutcome.raised], true)
    | o => (o :: (runPlists fs).1, (runPlists fs).2)

/-- Result of one `main` invocation. -/
inductive RunOutcome where
  | completed (pbxCount plistCount : Nat)
  | crashed
deriving DecidableEq, Repr

/-- `main` (src lines 287–328) over the discovered file contents: pbxproj
files are patched unconditionally (that loop cannot raise in this model),
then the plists; empty discovery lists (in particular when the generated
apple directory is absent, so both globs return nothing) only print
warnings (src lines 294–295, 303–304) and the run still completes with
the final summary (src line 325).  The script contains no abort path and
never calls `sys.exit`. -/
def mainRun (pbx : List (List Chars)) (ps : List (Except String PDict)) : RunOutcome :=
  if (runPlists ps).2 then .crashed
  else .completed pbx.length ps.length

/-! ## Derived predicates used by the statements -/

/-- A descriptor line on which no rule of `patch_pbxproj` fires. -/
def noTriggers (l : Chars) : Bool :=
  !shellTrigger l && simpleRepl.all (fun pr => !hasSub pr.1 l) && !teamTrigger l

/-- First character of a pattern is not a space (so occurrences cannot
start inside an all-space pad). -/
def headNotSpace : Chars → Bool
  | [] => false
  | c :: _ => c != ' '

/-- The `NSAllowsLocalNetworking` value reachable from the root mapping. -/
def atsAllows (p : PDict) : Option PValue :=
  match dictGet p "NSAppTransportSecurity" with
  | some (.d a) => dictGet a "NSAllowsLocalNetworking"
  | _ => none

/-- The `NSExceptionAllowsInsecureHTTPLoads` flag of the `localhost`
exception domain reachable from the root mapping. -/
def atsLocalhostInsecure (p : PDict) : Option PValue :=
  match dictGet p "NSAppTransportSecurity" with
  | some (.d a) =>
    match dictGet a "NSExceptionDomains" with
    | some (.d e) =>
      match dictGet e "localhost" with
      | some (.d lh) => dictGet lh "NSExceptionAllowsInsecureHTTPLoads"
      | _ => none
    | _ => none
  | _ => none

/-- The input plist has no pre-existing `localhost` exception entry, and
the transport-security values on that path (when present) are mappings. -/
def lhAbsentOk (p : PDict) : Bool :=
  match dictGet p "NSAppTransportSecurity" with
  | none => true
  | some (.d a) =>
    match dictGet a "NSExceptionDomains" with
    | none => true
    | some (.d e) => !dictHas e "localhost"
    | some _ => false
  | some _ => false

/-- The input's `NSAllowsLocalNetworking` is absent or Python-falsy
(treating a non-mapping transport-security value as out of scope: the
patch raises there). -/
def allowsAbsentOrFalsy (p : PDict) : Bool :=
  match dictGet p "NSAppTransportSecurity" with
  | none => true
  | some (.d a) =>
    match dictGet a "NSAllowsLocalNetworking" with
    | none => true
    | some v => !pyTruthy v
  | some _ => false

/-- The output's `NSAllowsLocalNetworking` exists and is Python-truthy. -/
def allowsTruthy (p : PDict) : Prop :=
  match atsAllows p with
  | some v => pyTruthy v = true
  | none => False

/-- The CI-required keys demanded by the property-list scenario, on the
final mapping of a completed patch. -/
def ciKeysOkRes : InfoResult → Prop
  | .raise => False
  | .ok r m =>
    m = true ∧
    dictGet r "NSLocalNetworkUsageDescription" = some (.s descText) ∧
    dictGet r "NSBonjourServices" = some bonjourV ∧
    atsLocalhostInsecure r = some (.b true)

/-! ## Helper lemmas: substring search -/

theorem isLeadOf_nil (s : Chars) : isLeadOf [] s = true := by
  cases s <;> rfl

theorem hasSub_cons_head_ne (a c : Char) (as s : Chars) (h : a ≠ c) :
    hasSub (a :: as) (c :: s) = hasSub (a :: as) s := by
  have : isLeadOf (a :: as) (c :: s) = false := by
    simp [isLeadOf, h]
  simp [hasSub, this]

theorem hasSub_space_pad (pat : Chars) (hp : headNotSpace pat = true) (n : Nat) (s : Chars) :
    hasSub pat (List.replicate n ' ' ++ s) = hasSub pat s := by
  induction n with
  | zero => simp
  | succ k ih =>
    cases pat with
    | nil => simp [headNotSpace] at hp
    | cons a as =>
      have ha : a ≠ ' ' := by
        simpa [headNotSpace] using hp
      calc hasSub (a :: as) (List.replicate (k + 1) ' ' ++ s)
          = hasSub (a :: as) (' ' :: (List.replicate k ' ' ++ s)) := by
            simp [List.replicate_succ]
        _ = hasSub (a :: as) (List.replicate k ' ' ++ s) :=
            hasSub_cons_head_ne a ' ' as _ ha
        _ = hasSub (a :: as) s := ih

theorem isLeadOf_take (pat : Chars) : ∀ s, isLeadOf pat s = true → s.take pat.length = pat := by
  induction pat with
  | nil => intro s _; simp
  | cons a as ih =>
    intro s h
    cases s with
    | nil => simp [isLeadOf] at h
    | cons b bs =>
      simp only [isLeadOf, Bool.and_eq_true, beq_iff_eq] at h
      simp [List.take, h.1.symm, ih bs h.2]

/-! ## Helper lemmas: character counts under substitution -/

theorem subAll_count (c : Char) (m : Chars → Option Nat) (mk : Chars → Chars)
    (h : ∀ s n, m s = some n → (mk (s.take n)).count c = (s.take n).count c) :
    ∀ f s, (subAll m mk f s).count c = s.count c := by
  intro f
  induction f with
  | zero => intro s; rfl
  | succ k ih =>
    intro s
    cases s with
    | nil => rfl
    | cons a as =>
      cases hm : m (a :: as) with
      | none => simp [subAll, hm, ih, List.count_cons]
      | some n =>
        have hsplit : ((a :: as).take n).count c + ((a :: as).drop n).count c
            = (a :: as).count c := by
          conv_rhs => rw [← List.take_append_drop n (a :: as)]
          exact (List.count_append ..).symm
        simp only [subAll, hm, List.count_append, ih, h (a :: as) n hm]
        exact hsplit

theorem replAll_count (c : Char) (pat rep : Chars) (hc : rep.count c = pat.count c)
    (s : Chars) : (replAll pat rep s).count c = s.count c := by
  apply subAll_count
  intro t n hm
  simp only at hm
  by_cases he : pat.isEmpty
  · rw [if_pos he] at hm
    exact absurd hm (by simp)
  · rw [if_neg he] at hm
    by_cases hl : isLeadOf pat t
    · rw [if_pos hl] at hm
      injection hm with hn
      subst hn
      simpa [isLeadOf_take pat t hl] using hc
    · rw [if_neg hl] at hm
      exact absurd hm (by simp)

theorem simpleStep_count (c : Char)
    (hc : ∀ pr ∈ simpleRepl, (pr.2).count c = (pr.1).count c) (l : Chars) :
    ((simpleStep l).1).count c = l.count c := by
  have main : ∀ (prs : List (Chars × Chars)), (∀ pr ∈ prs, (pr.2).count c = (pr.1).count c) →
      ∀ acc : Chars × Bool,
      ((prs.foldl (fun acc pr =>
          if hasSub pr.1 acc.1 then (replAll pr.1 pr.2 acc.1, true) else acc) acc).1).count c
        = acc.1.count c := by
    intro prs
    induction prs with
    | nil => intro _ acc; rfl
    | cons pr rest ih =>
      intro h acc
      have hpr := h pr (List.mem_cons_self pr rest)
      have hrest := fun q hq => h q (List.mem_cons_of_mem pr hq)
      by_cases hg : hasSub pr.1 acc.1
      · simp only [List.foldl_cons, hg, if_true]
        rw [ih hrest]
        exact replAll_count c pr.1 pr.2 hpr acc.1
      · simp only [List.foldl_cons, hg, if_false]
        exact ih hrest acc
  exact main simpleRepl hc (l, false)

/-! ## Helper lemmas: the per-line rewrite -/

theorem foldl_flag_true (prs : List (Chars × Chars)) :
    ∀ acc : Chars × Bool, acc.2 = true →
    ((prs.foldl (fun acc pr =>
        if hasSub pr.1 acc.1 then (replAll pr.1 pr.2 acc.1, true) else acc) acc)).2 = true := by
  induction prs with
  | nil => intro acc h; exact h
  | cons pr rest ih =>
    intro acc h
    by_cases hg : hasSub pr.1 acc.1
    · simp only [List.foldl_cons, hg, if_true]
      exact ih _ rfl
    · simp only [List.foldl_cons, hg, if_false]
      exact ih acc h

theorem foldl_flag_false (prs : List (Chars × Chars)) :
    ∀ acc : Chars × Bool,
    ((prs.foldl (fun acc pr =>
        if hasSub pr.1 acc.1 then (replAll pr.1 pr.2 acc.1, true) else acc) acc)).2 = false →
    (prs.foldl (fun acc pr =>
        if hasSub pr.1 acc.1 then (replAll pr.1 pr.2 acc.1, true) else acc) acc) = acc := by
  induction prs with
  | nil => intro acc _; rfl
  | cons pr rest ih =>
    intro acc h
    by_cases hg : hasSub pr.1 acc.1
    · exfalso
      simp only [List.foldl_cons, hg, if_true] at h
      rw [foldl_flag_true rest _ rfl] at h
      exact Bool.false_ne_true h.symm
    · simp only [List.foldl_cons, hg, if_false] at h ⊢
      exact ih acc h

theorem simpleStep_flag_false (l : Chars) (h : (simpleStep l).2 = false) :
    (simpleStep l).1 = l := by
  have := foldl_flag_false simpleRepl (l, false) h
  simp only [simpleStep] at *
  rw [this]

theorem patchLineM_flag_false (l : Chars) (h : (patchLineM l).2 = false) :
    patchLine l = l := by
  simp only [patchLineM, Bool.or_eq_false_iff] at h
  obtain ⟨⟨h1, h2⟩, h3⟩ := h
  have e1 : shellStep l = (l, false) := by
    by_cases hs : shellTrigger l
    · simp [shellStep, hs] at h1
    · simp [shellStep, hs]
  simp only [patchLine, patchLineM, e1] at *
  have e2 : (simpleStep l).1 = l := simpleStep_flag_false l h2
  rw [e2] at h3 ⊢
  by_cases ht : teamTrigger l
  · simp only [teamStep, ht, if_true] at h3 ⊢
    by_cases hnl : devTeamSub l = l
    · simp [hnl]
    · simp [hnl] at h3
  · simp [teamStep, ht]

theorem foldl_no_guard (prs : List (Chars × Chars)) :
    ∀ acc : Chars × Bool, (∀ pr ∈ prs, hasSub pr.1 acc.1 = false) →
    (prs.foldl (fun acc pr =>
        if hasSub pr.1 acc.1 then (replAll pr.1 pr.2 acc.1, true) else acc) acc) = acc := by
  induction prs with
  | nil => intro acc _; rfl
  | cons pr rest ih =>
    intro acc h
    have hpr : hasSub pr.1 acc.1 = false := h pr (List.mem_cons_self pr rest)
    simp only [List.foldl_cons, hpr, Bool.false_eq_true, if_false]
    exact ih acc (fun q hq => h q (List.mem_cons_of_mem pr hq))

theorem noTriggers_patchLineM (l : Chars) (h : noTriggers l = true) :
    patchLineM l = (l, false) := by
  simp only [noTriggers, Bool.and_eq_true, Bool.not_eq_true', List.all_eq_true] at h
  obtain ⟨⟨hs, hall⟩, ht⟩ := h
  have e1 : shellStep l = (l, false) := by simp [shellStep, hs]
  have e2 : simpleStep l = (l, false) := by
    apply foldl_no_guard
    intro pr hpr
    simpa using hall pr hpr
  have e3 : teamStep l = (l, false) := by simp [teamStep, ht]
  simp [patchLineM, e1, e2, e3]

theorem hasSub_noop (pat : Chars) (hp : headNotSpace pat = true) (n : Nat) :
    hasSub pat (noopShellLine n) = hasSub pat noopTail :=
  hasSub_space_pad pat hp n noopTail

theorem simpleStep_noop (n : Nat) : simpleStep (noopShellLine n) = (noopShellLine n, false) := by
  apply foldl_no_guard
  intro pr hpr
  fin_cases hpr <;> (rw [hasSub_noop _ (by decide)]; decide)

theorem teamStep_noop (n : Nat) : teamStep (noopShellLine n) = (noopShellLine n, false) := by
  have hq : hasSub (("\"\"").toList) (noopShellLine n) = true := by
    rw [hasSub_noop _ (by decide)]; decide
  have ht : teamTrigger (noopShellLine n) = false := by
    unfold teamTrigger
    rw [hq]
    simp
  simp [teamStep, ht]

theorem patchLine_shell (l : Chars) (h : shellTrigger l = true) :
    patchLineM l = (noopShellLine (pyLstripCount l), true) := by
  have e1 : shellStep l = (noopShellLine (pyLstripCount l), true) := by
    simp [shellStep, h]
  simp [patchLineM, e1, simpleStep_noop, teamStep_noop]

theorem lowerL_noop (n : Nat) :
    lowerL (noopShellLine n) = List.replicate n ' ' ++ lowerL noopTail := by
  have : Char.toLower ' ' = ' ' := rfl
  simp [noopShellLine, lowerL, List.map_append, List.map_replicate, this]

theorem noop_no_tauri (n : Nat) :
    hasSub (("tauri").toList) (lowerL (noopShellLine n)) = false := by
  rw [lowerL_noop, hasSub_space_pad _ (by decide)]
  decide

/-! ## Helper lemmas: Python dictionaries -/

theorem dictGet_set_self (m : PDict) (k : String) (v : PValue) :
    dictGet (dictSet m k v) k = some v := by
  induction m with
  | nil => simp [dictSet, dictGet]
  | cons kv rest ih =>
    obtain ⟨k', v'⟩ := kv
    by_cases h : k' = k
    · simp [dictSet, dictGet, h]
    · simp [dictSet, dictGet, h, ih]

theorem dictGet_set_ne (m : PDict) (k' k : String) (v : PValue) (h : k' ≠ k) :
    dictGet (dictSet m k' v) k = dictGet m k := by
  induction m with
  | nil => simp [dictSet, dictGet, h]
  | cons kv rest ih =>
    obtain ⟨a, b⟩ := kv
    by_cases ha : a = k'
    · simp [dictSet, dictGet, ha, h]
    · simp [dictSet, dictGet, ha, ih]

theorem dictSet_get_eq (m : PDict) (k : String) (v : PValue)
    (h : dictGet m k = some v) : dictSet m k v = m := by
  induction m with
  | nil => simp [dictGet] at h
  | cons kv rest ih =>
    obtain ⟨a, b⟩ := kv
    by_cases ha : a = k
    · simp only [dictGet, ha, if_true, Option.some.injEq] at h
      simp [dictSet, ha, h]
    · simp only [dictGet, ha, if_false] at h
      simp [dictSet, ha, ih h]

theorem dictHas_eq (m : PDict) (k : String) : dictHas m k = (dictGet m k).isSome := rfl

/-! ## Helper lemmas: the transport-security steps -/

/-- The mapping's `NSAllowsLocalNetworking` entry exists and is truthy. -/
def alnGood (d : PDict) : Prop :=
  ∃ v, dictGet d "NSAllowsLocalNetworking" = some v ∧ pyTruthy v = true

/-- The option holds no value, or a Python-falsy one. -/
def absentOrFalsy : Option PValue → Bool
  | none => true
  | some v => !pyTruthy v

/-- `NSExceptionDomains` is absent, or a mapping without `localhost`. -/
def lhAbsentOkD (b : PDict) : Bool :=
  match dictGet b "NSExceptionDomains" with
  | none => true
  | some (.d e) => !dictHas e "localhost"
  | some _ => false

theorem atsStep1_alnGood (a : PDict) (m : Bool) : alnGood (atsStep1 a m).1 := by
  unfold atsStep1
  cases hv : dictGet a "NSAllowsLocalNetworking" with
  | none =>
    dsimp only
    exact ⟨.b true, dictGet_set_self .., rfl⟩
  | some v =>
    dsimp only
    by_cases ht : pyTruthy v
    · rw [if_pos ht]
      exact ⟨v, hv, ht⟩
    · rw [if_neg ht]
      exact ⟨.b true, dictGet_set_self .., rfl⟩

theorem atsStep1_absent (a : PDict) (m : Bool)
    (h : absentOrFalsy (dictGet a "NSAllowsLocalNetworking") = true) :
    dictGet (atsStep1 a m).1 "NSAllowsLocalNetworking" = some (.b true) := by
  unfold atsStep1
  cases hv : dictGet a "NSAllowsLocalNetworking" with
  | none => exact dictGet_set_self ..
  | some v =>
    rw [hv] at h
    have ht : pyTruthy v = false := by simpa [absentOrFalsy] using h
    dsimp only
    rw [if_neg (by simp [ht])]
    exact dictGet_set_self ..

theorem atsStep1_flag_false (a : PDict) (m : Bool)
    (h : (atsStep1 a m).2 = false) : (atsStep1 a m).1 = a ∧ m = false := by
  unfold atsStep1 at *
  cases hv : dictGet a "NSAllowsLocalNetworking" with
  | none => rw [hv] at h; simp at h
  | some v =>
    rw [hv] at h
    dsimp only at h ⊢
    by_cases ht : pyTruthy v
    · rw [if_pos ht] at h ⊢
      exact ⟨rfl, h⟩
    · rw [if_neg ht] at h
      simp at h

theorem atsStep1_flag_true (a : PDict) (m : Bool) (h : m = true) :
    (atsStep1 a m).2 = true := by
  unfold atsStep1
  cases hv : dictGet a "NSAllowsLocalNetworking" with
  | none => rfl
  | some v =>
    dsimp only
    by_cases ht : pyTruthy v
    · rw [if_pos ht]; exact h
    · rw [if_neg ht]

theorem atsStep1_get_ne (a : PDict) (m : Bool) (k : String)
    (hk : k ≠ "NSAllowsLocalNetworking") :
    dictGet (atsStep1 a m).1 k = dictGet a k := by
  unfold atsStep1
  cases hv : dictGet a "NSAllowsLocalNetworking" with
  | none => exact dictGet_set_ne a _ k (.b true) (fun he => hk he.symm)
  | some v =>
    dsimp only
    by_cases ht : pyTruthy v
    · rw [if_pos ht]
    · rw [if_neg ht]
      exact dictGet_set_ne a _ k (.b true) (fun he => hk he.symm)

/-- Exhaustive description of the `localhost` exception-domain step. -/
theorem atsStep2_cases (b : PDict) (m : Bool) :
    (∃ e, dictGet b "NSExceptionDomains" = some (.d e) ∧ dictHas e "localhost" = true ∧
      atsStep2 b m = some (b, m)) ∨
    (∃ e, dictGet b "NSExceptionDomains" = some (.d e) ∧ dictHas e "localhost" = false ∧
      atsStep2 b m =
        some (dictSet b "NSExceptionDomains" (.d (dictSet e "localhost" lhExc)), true)) ∨
    (dictGet b "NSExceptionDomains" = none ∧
      atsStep2 b m =
        some (dictSet (dictSet b "NSExceptionDomains" (.d []))
          "NSExceptionDomains" (.d (dictSet [] "localhost" lhExc)), true)) ∨
    (∃ v, dictGet b "NSExceptionDomains" = some (.s v) ∧ atsStep2 b m = some (b, m)) ∨
    (∃ vs, dictGet b "NSExceptionDomains" = some (.arr vs) ∧ atsStep2 b m = some (b, m)) ∨
    (lhAbsentOkD b = false ∧ atsStep2 b m = none) := by
  by_cases hb : dictHas b "NSExceptionDomains"
  · obtain ⟨v, hv⟩ := Option.isSome_iff_exists.mp hb
    have he : atsStep2 b m = atsStep2core b m := by
      unfold atsStep2
      rw [if_pos hb]
    cases v with
    | d e =>
      by_cases hl : dictHas e "localhost"
      · refine Or.inl ⟨e, hv, hl, ?_⟩
        rw [he]
        unfold atsStep2core
        rw [hv]
        dsimp only
        rw [if_pos hl]
      · refine Or.inr (Or.inl ⟨e, hv, by simpa using hl, ?_⟩)
        rw [he]
        unfold atsStep2core
        rw [hv]
        dsimp only
        rw [if_neg hl]
    | s v =>
      by_cases hs : hasSub ("localhost".toList) v.toList
      · refine Or.inr (Or.inr (Or.inr (Or.inl ⟨v, hv, ?_⟩)))
        rw [he]
        unfold atsStep2core
        rw [hv]
        dsimp only
        rw [if_pos hs]
      · refine Or.inr (Or.inr (Or.inr (Or.inr (Or.inr ⟨?_, ?_⟩))))
        · unfold lhAbsentOkD
          rw [hv]
        · rw [he]
          unfold atsStep2core
          rw [hv]
          dsimp only
          rw [if_neg hs]
    | arr vs =>
      by_cases ha : vs.any (fun x => match x with | .s y => y = "localhost" | _ => false)
      · refine Or.inr (Or.inr (Or.inr (Or.inr (Or.inl ⟨vs, hv, ?_⟩))))
        rw [he]
        unfold atsStep2core
        rw [hv]
        dsimp only
        rw [if_pos ha]
      · refine Or.inr (Or.inr (Or.inr (Or.inr (Or.inr ⟨?_, ?_⟩))))
        · unfold lhAbsentOkD
          rw [hv]
        · rw [he]
          unfold atsStep2core
          rw [hv]
          dsimp only
          rw [if_neg ha]
    | b bv =>
      refine Or.inr (Or.inr (Or.inr (Or.inr (Or.inr ⟨?_, ?_⟩))))
      · unfold lhAbsentOkD
        rw [hv]
      · rw [he]
        unfold atsStep2core
        rw [hv]
  · have hn : dictGet b "NSExceptionDomains" = none := by
      rw [dictHas_eq] at hb
      exact Option.not_isSome_iff_eq_none.mp (by simpa using hb)
    refine Or.inr (Or.inr (Or.inl ⟨hn, ?_⟩))
    unfold atsStep2
    rw [if_neg (by simp [hb])]
    unfold atsStep2core
    rw [dictGet_set_self]
    dsimp only
    rfl

theorem atsStep1_flag_absent (a : PDict) (m : Bool)
    (h : absentOrFalsy (dictGet a "NSAllowsLocalNetworking") = true) :
    (atsStep1 a m).2 = true := by
  unfold atsStep1
  cases hv : dictGet a "NSAllowsLocalNetworking" with
  | none => rfl
  | some v =>
    rw [hv] at h
    have ht : pyTruthy v = false := by simpa [absentOrFalsy] using h
    dsimp only
    rw [if_neg (by simp [ht])]

theorem atsStep2_flag_true (b : PDict) (m : Bool) (af : PDict) (mf : Bool)
    (hm : m = true) (h : atsStep2 b m = some (af, mf)) : mf = true := by
  rcases atsStep2_cases b m with ⟨e, _, _, he⟩ | ⟨e, _, _, he⟩ | ⟨_, he⟩ | ⟨v, _, he⟩ |
    ⟨vs, _, he⟩ | ⟨_, he⟩ <;> rw [he] at h <;> simp_all

theorem atsStep2_flag_false (b : PDict) (m : Bool) (af : PDict)
    (h : atsStep2 b m = some (af, false)) : af = b ∧ m = false := by
  rcases atsStep2_cases b m with ⟨e, _, _, he⟩ | ⟨e, _, _, he⟩ | ⟨_, he⟩ | ⟨v, _, he⟩ |
    ⟨vs, _, he⟩ | ⟨_, he⟩ <;> rw [he] at h <;> simp_all

theorem atsStep2_get_ne (b : PDict) (m : Bool) (af : PDict) (mf : Bool) (k : String)
    (hk : k ≠ "NSExceptionDomains") (h : atsStep2 b m = some (af, mf)) :
    dictGet af k = dictGet b k := by
  have hk' : ¬("NSExceptionDomains" = k) := fun he => hk he.symm
  rcases atsStep2_cases b m with ⟨e, _, _, he⟩ | ⟨e, _, _, he⟩ | ⟨_, he⟩ | ⟨v, _, he⟩ |
    ⟨vs, _, he⟩ | ⟨_, he⟩ <;> rw [he] at h <;> simp_all <;>
    (rw [← h.1, dictGet_set_ne _ _ _ _ hk']
     try rw [dictGet_set_ne _ _ _ _ hk'])

theorem atsStep2_localhost (b : PDict) (m : Bool) (af : PDict) (mf : Bool)
    (hok : lhAbsentOkD b = true) (h : atsStep2 b m = some (af, mf)) :
    mf = true ∧
    (∃ e, dictGet af "NSExceptionDomains" = some (.d e) ∧
      dictGet e "localhost" = some lhExc) := by
  rcases atsStep2_cases b m with ⟨e, hv, hl, he⟩ | ⟨e, hv, hl, he⟩ | ⟨hv, he⟩ |
    ⟨v, hv, he⟩ | ⟨vs, hv, he⟩ | ⟨hbad, he⟩
  · unfold lhAbsentOkD at hok
    rw [hv] at hok
    simp [hl] at hok
  · rw [he] at h
    simp only [Option.some.injEq, Prod.mk.injEq] at h
    obtain ⟨h1, h2⟩ := h
    subst h1
    subst h2
    exact ⟨rfl, dictSet e "localhost" lhExc, dictGet_set_self .., dictGet_set_self ..⟩
  · rw [he] at h
    simp only [Option.some.injEq, Prod.mk.injEq] at h
    obtain ⟨h1, h2⟩ := h
    subst h1
    subst h2
    exact ⟨rfl, dictSet [] "localhost" lhExc, dictGet_set_self .., dictGet_set_self ..⟩
  · unfold lhAbsentOkD at hok
    rw [hv] at hok
    exact absurd hok (by simp)
  · unfold lhAbsentOkD at hok
    rw [hv] at hok
    exact absurd hok (by simp)
  · rw [he] at h
    exact absurd h (by simp)

theorem patchATS_flag_false (a : PDict) (m : Bool) (af : PDict)
    (h : patchATS a m = some (af, false)) : af = a ∧ m = false := by
  unfold patchATS at h
  obtain ⟨h1, h2⟩ := atsStep2_flag_false _ _ _ h
  obtain ⟨h3, h4⟩ := atsStep1_flag_false a m h2
  exact ⟨h1.trans h3, h4⟩

theorem patchATS_flag_true (a : PDict) (m : Bool) (af : PDict) (mf : Bool)
    (hm : m = true) (h : patchATS a m = some (af, mf)) : mf = true := by
  unfold patchATS at h
  exact atsStep2_flag_true _ _ _ _ (atsStep1_flag_true a m hm) h

theorem patchATS_flag_absent (a : PDict) (m : Bool) (af : PDict) (mf : Bool)
    (hab : absentOrFalsy (dictGet a "NSAllowsLocalNetworking") = true)
    (h : patchATS a m = some (af, mf)) : mf = true := by
  unfold patchATS at h
  exact atsStep2_flag_true _ _ _ _ (atsStep1_flag_absent a m hab) h

theorem patchATS_alnGood (a : PDict) (m : Bool) (af : PDict) (mf : Bool)
    (h : patchATS a m = some (af, mf)) : alnGood af := by
  unfold patchATS at h
  obtain ⟨v, hv, ht⟩ := atsStep1_alnGood a m
  refine ⟨v, ?_, ht⟩
  rw [atsStep2_get_ne _ _ _ _ _ (by decide) h]
  exact hv

theorem patchATS_absent (a : PDict) (m : Bool) (af : PDict) (mf : Bool)
    (hab : absentOrFalsy (dictGet a "NSAllowsLocalNetworking") = true)
    (h : patchATS a m = some (af, mf)) :
    dictGet af "NSAllowsLocalNetworking" = some (.b true) := by
  unfold patchATS at h
  rw [atsStep2_get_ne _ _ _ _ _ (by decide) h]
  exact atsStep1_absent a m hab

theorem lhAbsentOkD_congr (b b' : PDict)
    (h : dictGet b' "NSExceptionDomains" = dictGet b "NSExceptionDomains") :
    lhAbsentOkD b' = lhAbsentOkD b := by
  unfold lhAbsentOkD
  rw [h]

theorem patchATS_localhost (a : PDict) (m : Bool) (af : PDict) (mf : Bool)
    (hok : lhAbsentOkD a = true) (h : patchATS a m = some (af, mf)) :
    mf = true ∧
    (∃ e, dictGet af "NSExceptionDomains" = some (.d e) ∧
      dictGet e "localhost" = some lhExc) := by
  unfold patchATS at h
  refine atsStep2_localhost _ _ _ _ ?_ h
  rw [lhAbsentOkD_congr a (atsStep1 a m).1
    (atsStep1_get_ne a m "NSExceptionDomains" (by decide))]
  exact hok

theorem dictHas_set_ne (m : PDict) (k' k : String) (v : PValue) (h : k' ≠ k) :
    dictHas (dictSet m k' v) k = dictHas m k := by
  rw [dictHas_eq, dictHas_eq, dictGet_set_ne _ _ _ _ h]

theorem atsStep2_total (b : PDict) (m : Bool) (hok : lhAbsentOkD b = true) :
    ∃ af mf, atsStep2 b m = some (af, mf) := by
  rcases atsStep2_cases b m with ⟨e, _, _, he⟩ | ⟨e, _, _, he⟩ | ⟨_, he⟩ | ⟨v, _, he⟩ |
    ⟨vs, _, he⟩ | ⟨hbad, _⟩
  · exact ⟨b, m, he⟩
  · exact ⟨_, _, he⟩
  · exact ⟨_, _, he⟩
  · exact ⟨b, m, he⟩
  · exact ⟨b, m, he⟩
  · rw [hok] at hbad
    exact absurd hbad (by simp)

theorem patchATS_total (a : PDict) (m : Bool) (hok : lhAbsentOkD a = true) :
    ∃ af mf, patchATS a m = some (af, mf) := by
  unfold patchATS
  apply atsStep2_total
  rw [lhAbsentOkD_congr a (atsStep1 a m).1
    (atsStep1_get_ne a m "NSExceptionDomains" (by decide))]
  exact hok

/-! ## Helper lemmas: the `patch_info_plist` prelude and assembly -/

theorem infoPrelude_spec (p : PDict) :
    (infoPrelude p).2 =
      (!dictHas p "NSLocalNetworkUsageDescription" || !dictHas p "NSBonjourServices") ∧
    dictGet (infoPrelude p).1 "NSLocalNetworkUsageDescription" =
      (if dictHas p "NSLocalNetworkUsageDescription" then
        dictGet p "NSLocalNetworkUsageDescription" else some (.s descText)) ∧
    dictGet (infoPrelude p).1 "NSBonjourServices" =
      (if dictHas p "NSBonjourServices" then dictGet p "NSBonjourServices" else some bonjourV) ∧
    dictGet (infoPrelude p).1 "NSAppTransportSecurity" =
      (if dictHas p "NSAppTransportSecurity" then
        dictGet p "NSAppTransportSecurity" else some (.d [])) := by
  have n1 : ("NSLocalNetworkUsageDescription" : String) ≠ "NSBonjourServices" := by decide
  have n2 : ("NSLocalNetworkUsageDescription" : String) ≠ "NSAppTransportSecurity" := by decide
  have n3 : ("NSBonjourServices" : String) ≠ "NSAppTransportSecurity" := by decide
  unfold infoPrelude
  by_cases h1 : dictHas p "NSLocalNetworkUsageDescription" <;>
    by_cases h2 : dictHas p "NSBonjourServices" <;>
    by_cases h3 : dictHas p "NSAppTransportSecurity" <;>
    simp [h1, h2, h3, dictHas_set_ne _ _ _ _ n1, dictHas_set_ne _ _ _ _ n2,
      dictHas_set_ne _ _ _ _ n3, dictGet_set_ne _ _ _ _ n1, dictGet_set_ne _ _ _ _ n2,
      dictGet_set_ne _ _ _ _ n3, dictGet_set_ne _ _ _ _ n1.symm,
      dictGet_set_ne _ _ _ _ n2.symm, dictGet_set_ne _ _ _ _ n3.symm, dictGet_set_self]

theorem infoPrelude_id (p : PDict)
    (hu : dictHas p "NSLocalNetworkUsageDescription" = true)
    (hb : dictHas p "NSBonjourServices" = true) :
    (infoPrelude p).1 =
      (if dictHas p "NSAppTransportSecurity" then p
       else dictSet p "NSAppTransportSecurity" (.d [])) := by
  unfold infoPrelude
  simp [hu, hb]

theorem patchInfoPlist_ok_shape (p r : PDict) (mf : Bool) (h : patchInfoPlist p = .ok r mf) :
    ∃ a af, dictGet (infoPrelude p).1 "NSAppTransportSecurity" = some (.d a) ∧
      patchATS a (infoPrelude p).2 = some (af, mf) ∧
      r = dictSet (infoPrelude p).1 "NSAppTransportSecurity" (.d af) := by
  unfold patchInfoPlist at h
  cases hg : dictGet (infoPrelude p).1 "NSAppTransportSecurity" with
  | none =>
    rw [hg] at h
    exact absurd h (by simp)
  | some v =>
    rw [hg] at h
    cases v with
    | d a =>
      dsimp only at h
      cases hpa : patchATS a (infoPrelude p).2 with
      | none =>
        rw [hpa] at h
        exact absurd h (by simp)
      | some pr =>
        obtain ⟨af, mf'⟩ := pr
        rw [hpa] at h
        dsimp only at h
        injection h with h1 h2
        exact ⟨a, af, rfl, by rw [h2] at hpa; exact hpa, h1.symm⟩
    | s v => exact absurd h (by simp)
    | b v => exact absurd h (by simp)
    | arr vs => exact absurd h (by simp)

theorem patchInfoPlist_ok_false (p r : PDict) (h : patchInfoPlist p = .ok r false) :
    r = p := by
  obtain ⟨a, af, hg, hpa, hr⟩ := patchInfoPlist_ok_shape p r false h
  obtain ⟨haf, hm2⟩ := patchATS_flag_false _ _ _ hpa
  obtain ⟨spec_m2, _, _, _⟩ := infoPrelude_spec p
  rw [spec_m2] at hm2
  have hu : dictHas p "NSLocalNetworkUsageDescription" = true := by
    rcases Bool.or_eq_false_iff.mp hm2 with ⟨h1, _⟩
    simpa using h1
  have hb : dictHas p "NSBonjourServices" = true := by
    rcases Bool.or_eq_false_iff.mp hm2 with ⟨_, h2⟩
    simpa using h2
  have hid := infoPrelude_id p hu hb
  by_cases hA : dictHas p "NSAppTransportSecurity"
  · rw [hid, if_pos hA] at hg hr
    rw [hr, haf]
    exact dictSet_get_eq p _ _ hg
  · exfalso
    rw [hid, if_neg hA, dictGet_set_self] at hg
    injection hg with hg'
    injection hg' with hg''
    have : (false : Bool) = true :=
      (patchATS_flag_absent a _ af false (by rw [← hg'']; rfl) hpa).symm ▸ rfl
    exact absurd (patchATS_flag_absent a _ af false (by rw [← hg'']; rfl) hpa)
      (by simp)

theorem patchInfoPlist_allows (p r : PDict) (mf : Bool) (h : patchInfoPlist p = .ok r mf) :
    allowsTruthy r ∧
    (allowsAbsentOrFalsy p = true → atsAllows r = some (.b true)) := by
  obtain ⟨a, af, hg, hpa, hr⟩ := patchInfoPlist_ok_shape p r mf h
  have hselfats : dictGet r "NSAppTransportSecurity" = some (.d af) := by
    rw [hr]
    exact dictGet_set_self ..
  constructor
  · obtain ⟨v, hv, ht⟩ := patchATS_alnGood _ _ _ _ hpa
    unfold allowsTruthy atsAllows
    rw [hselfats]
    dsimp only
    rw [hv]
    exact ht
  · intro hab
    have habs : absentOrFalsy (dictGet a "NSAllowsLocalNetworking") = true := by
      obtain ⟨_, _, _, spec_ats⟩ := infoPrelude_spec p
      by_cases hA : dictHas p "NSAppTransportSecurity"
      · rw [spec_ats, if_pos hA] at hg
        unfold allowsAbsentOrFalsy at hab
        rw [hg] at hab
        dsimp only at hab
        cases hv : dictGet a "NSAllowsLocalNetworking" with
        | none => rfl
        | some v =>
          rw [hv] at hab
          unfold absentOrFalsy
          exact hab
      · rw [spec_ats, if_neg hA] at hg
        injection hg with hg'
        injection hg' with hg''
        rw [← hg'']
        rfl
    unfold atsAllows
    rw [hselfats]
    dsimp only
    exact patchATS_absent _ _ _ _ habs hpa

theorem patchInfoPlist_keys (p : PDict)
    (hu : dictHas p "NSLocalNetworkUsageDescription" = false)
    (hb : dictHas p "NSBonjourServices" = false)
    (hok : lhAbsentOk p = true) : ciKeysOkRes (patchInfoPlist p) := by
  obtain ⟨spec_m2, spec_u, spec_b, spec_ats⟩ := infoPrelude_spec p
  have hm2 : (infoPrelude p).2 = true := by
    rw [spec_m2, hu]
    rfl
  suffices hcore : ∀ a0, dictGet (infoPrelude p).1 "NSAppTransportSecurity" = some (.d a0) →
      lhAbsentOkD a0 = true → ciKeysOkRes (patchInfoPlist p) by
    by_cases hA : dictHas p "NSAppTransportSecurity"
    · obtain ⟨v, hv⟩ := Option.isSome_iff_exists.mp hA
      cases v with
      | d a =>
        refine hcore a ?_ ?_
        · rw [spec_ats, if_pos hA]
          exact hv
        · unfold lhAbsentOk at hok
          rw [hv] at hok
          exact hok
      | s v =>
        unfold lhAbsentOk at hok
        rw [hv] at hok
        simp at hok
      | b v =>
        unfold lhAbsentOk at hok
        rw [hv] at hok
        simp at hok
      | arr vs =>
        unfold lhAbsentOk at hok
        rw [hv] at hok
        simp at hok
    · refine hcore [] ?_ rfl
      rw [spec_ats, if_neg (by simp [hA])]
  intro a0 hg hok0
  obtain ⟨af, mf, hpa⟩ := patchATS_total a0 (infoPrelude p).2 hok0
  have hmf : mf = true := patchATS_flag_true _ _ _ _ hm2 hpa
  obtain ⟨_, e, hge, hlh⟩ := patchATS_localhost _ _ _ _ hok0 hpa
  have hres : patchInfoPlist p =
      .ok (dictSet (infoPrelude p).1 "NSAppTransportSecurity" (.d af)) mf := by
    unfold patchInfoPlist
    rw [hg]
    dsimp only
    rw [hpa]
  rw [hres]
  unfold ciKeysOkRes
  refine ⟨hmf, ?_, ?_, ?_⟩
  · rw [dictGet_set_ne _ _ _ _ (by decide), spec_u, if_neg (by simp [hu])]
  · rw [dictGet_set_ne _ _ _ _ (by decide), spec_b, if_neg (by simp [hb])]
  · unfold atsLocalhostInsecure
    rw [dictGet_set_self]
    dsimp only
    rw [hge]
    dsimp only
    rw [hlh]
    unfold lhExc
    rfl

/-! ## Concrete inputs used by the claim theorems -/

/-- A Swift source fragment containing the Tauri dev-server block. -/
def exLibSwift : Chars := ("if let devUrl = devUrl \x7b load() \x7d").toList

/-- A descriptor line whose signing identity is not among the three
enumerated literals. -/
def exDistLine : Chars := ("      CODE_SIGN_IDENTITY = \"iPhone Distribution\";\n").toList

/-- A one-line descriptor that triggers no rewrite rule. -/
def exPlainDoc : List Chars := [("\tfoo = bar;\n").toList]

/-- A balanced two-line descriptor whose tauri shell-script line contains
an opening brace inside the script string. -/
def exBraceDoc : List Chars :=
  [("shellScript = \"tauri \x7b \";\n").toList, ("x = \x7d;\n").toList]

/-- A rule-free one-line descriptor used for the write-policy claims. -/
def exNoRuleDoc : List Chars := [("foo;\n").toList]

/-- A tauri shell-script line. -/
def exShellLine : Chars := ("\t\t\tshellScript = \"tauri ios build\";\n").toList

/-- A plist lacking the usage key but already holding an empty Bonjour
list and a `localhost` exception forbidding insecure loads. -/
def exPlist5 : PDict :=
  [("NSBonjourServices", .arr []),
   ("NSAppTransportSecurity", .d [("NSExceptionDomains", .d
     [("localhost", .d [("NSExceptionAllowsInsecureHTTPLoads", .b false)])])])]

/-- A plist whose `NSAllowsLocalNetworking` is the truthy string "YES". -/
def exPlist10 : PDict :=
  [("NSAppTransportSecurity", .d [("NSAllowsLocalNetworking", .s "YES")])]

/-- A fully configured plist on which the patch changes nothing. -/
def exPlistDone : PDict :=
  [("NSLocalNetworkUsageDescription", .s "x"),
   ("NSBonjourServices", .arr [.s "y"]),
   ("NSAppTransportSecurity", .d [("NSAllowsLocalNetworking", .b true),
     ("NSExceptionDomains", .d [("localhost", .d [])])])]

/-- The mapping produced by patching the empty plist. -/
def exPatchedEmpty : PDict :=
  [("NSLocalNetworkUsageDescription", .s descText),
   ("NSBonjourServices", bonjourV),
   ("NSAppTransportSecurity", .d
     [("NSAllowsLocalNetworking", .b true),
      ("NSExceptionDomains", .d [("localhost", lhExc)])])]

/-- The value at `NSAppTransportSecurity → NSAllowsLocalNetworking` of a
completed patch result. -/
def infoResAllows : InfoResult → Option PValue
  | .ok r _ => atsAllows r
  | .raise => none

/-- The `NSBonjourServices` value of a completed patch result. -/
def infoResBonjour : InfoResult → Option PValue
  | .ok r _ => dictGet r "NSBonjourServices"
  | .raise => none

/-- The `localhost` insecure-loads flag of a completed patch result. -/
def infoResLhInsecure : InfoResult → Option PValue
  | .ok r _ => atsLocalhostInsecure r
  | .raise => none

/-! ## The claims -/

/-- C1: the adapters are claimed idempotent; the code is not.  The
`patch_tauri_lib_swift` content rewrite applied to a file it has already
rewritten wraps the `if let devUrl = devUrl \x7b...\x7d` block in a second
comment: applying the rewrite twice differs from applying it once on this
input, refuting `A(A(D)) = A(D)` at a concrete document. -/
theorem c1_tauri_lib_rewrap :
    patchTauriLib (patchTauriLib exLibSwift) ≠ patchTauriLib exLibSwift := by
  decide

/-- C2 counterexample: a `CODE_SIGN_IDENTITY` line with the literal value
"iPhone Distribution" passes through `patch_pbxproj` byte-for-byte
unchanged, so not every identity value is blanked. -/
theorem c2_distribution_unchanged :
    patchLine exDistLine = exDistLine ∧
    hasSub (("CODE_SIGN_IDENTITY = \"iPhone Distribution\"").toList) exDistLine = true ∧
    hasSub (("CODE_SIGN_IDENTITY = \"\"").toList) (patchLine exDistLine) = false := by
  decide

/-- C2 amended: `patch_pbxproj` blanks the signing identity only for the
three enumerated literal values ("Apple Development", "-",
"iPhone Developer"); a line triggering no rule — in particular one whose
identity value is any other literal — is left byte-for-byte unchanged. -/
theorem c2_enumerated_only :
    (patchLine (("      CODE_SIGN_IDENTITY = \"Apple Development\";\n").toList)
       = ("      CODE_SIGN_IDENTITY = \"\";\n").toList ∧
     patchLine (("      CODE_SIGN_IDENTITY = \"-\";\n").toList)
       = ("      CODE_SIGN_IDENTITY = \"\";\n").toList ∧
     patchLine (("      CODE_SIGN_IDENTITY = \"iPhone Developer\";\n").toList)
       = ("      CODE_SIGN_IDENTITY = \"\";\n").toList) ∧
    ∀ l : Chars, noTriggers l = true → patchLine l = l := by
  refine ⟨⟨by decide, by decide, by decide⟩, fun l h => ?_⟩
  unfold patchLine
  rw [noTriggers_patchLineM l h]

/-- C2 witness: the amended theorem applied to a concrete untriggered line. -/
theorem c2_enumerated_only_witness :
    noTriggers (("x = 1;\n").toList) = true ∧
    patchLine (("x = 1;\n").toList) = ("x = 1;\n").toList :=
  ⟨by decide, c2_enumerated_only.2 (("x = 1;\n").toList) (by decide)⟩

/-- C3 counterexample: on a descriptor containing none of the signing
keys, `patch_pbxproj` returns the document unchanged — the
signing-required, signing-allowed and ad-hoc flags are absent from the
output, so absent keys are not injected. -/
theorem c3_no_injection_counterexample :
    (patchPbxproj exPlainDoc).newLines = exPlainDoc ∧
    hasSub (("CODE_SIGNING_REQUIRED").toList) ((patchPbxproj exPlainDoc).newLines).flatten
      = false ∧
    hasSub (("CODE_SIGNING_ALLOWED").toList) ((patchPbxproj exPlainDoc).newLines).flatten
      = false ∧
    hasSub (("AD_HOC_CODE_SIGNING_ALLOWED").toList)
      ((patchPbxproj exPlainDoc).newLines).flatten = false := by
  decide

/-- C3 amended: `patch_pbxproj` rewrites the signing-required and
signing-allowed flags to NO where a `= YES` line pre-exists, but injects
nothing: a document on which no rule triggers is returned unchanged (and
the ad-hoc flag is never referenced by `patch_pbxproj` at all). -/
theorem c3_rewrite_only :
    (patchLine (("\t\tCODE_SIGNING_REQUIRED = YES;\n").toList)
       = ("\t\tCODE_SIGNING_REQUIRED = NO;\n").toList ∧
     patchLine (("\t\tCODE_SIGNING_ALLOWED = YES;\n").toList)
       = ("\t\tCODE_SIGNING_ALLOWED = NO;\n").toList) ∧
    ∀ doc : List Chars, (∀ l ∈ doc, noTriggers l = true) →
      (patchPbxproj doc).newLines = doc := by
  refine ⟨⟨by decide, by decide⟩, fun doc h => ?_⟩
  show doc.map patchLine = doc
  have : doc.map patchLine = doc.map id := by
    apply List.map_congr_left
    intro l hl
    show patchLine l = l
    unfold patchLine
    rw [noTriggers_patchLineM l (h l hl)]
  rw [this, List.map_id]

/-- C3 witness: the amended theorem applied to a concrete untriggered
document. -/
theorem c3_rewrite_only_witness :
    (∀ l ∈ exPlainDoc, noTriggers l = true) ∧
    (patchPbxproj exPlainDoc).newLines = exPlainDoc :=
  ⟨by decide, c3_rewrite_only.2 exPlainDoc (by decide)⟩

/-- C4 counterexample: with the generated apple directory absent both
discovery globs are empty; the session does not abort — it completes
normally (printing warnings), refuting the claimed fatal failure. -/
theorem c4_missing_dir_completes :
    mainRun [] [] = .completed 0 0 ∧ mainRun [] [] ≠ .crashed := by
  decide

/-- C4 amended: the session never aborts on a missing input directory; it
completes (with the summary counts) whenever no processed plist raises an
uncaught exception — in particular when discovery finds no files at all.
Decode failures are caught per file and do not end the run. -/
theorem c4_session_completes (pbx : List (List Chars)) (ps : List (Except String PDict))
    (h : (runPlists ps).2 = false) :
    mainRun pbx ps = .completed pbx.length ps.length := by
  unfold mainRun
  rw [h]
  simp

/-- C4 witness: the amended theorem at the empty discovery result. -/
theorem c4_session_completes_witness :
    (runPlists []).2 = false ∧ mainRun [] [] = .completed 0 0 :=
  ⟨rfl, c4_session_completes [] [] rfl⟩

/-- C5 counterexample: a decodable plist lacking the usage key but already
holding an empty `NSBonjourServices` list and a `localhost` exception with
insecure loads disabled keeps both after patching (check-then-set skips
present keys), refuting the claimed non-empty Bonjour list and insecure-
load exception. -/
theorem c5_preexisting_counterexample :
    dictHas exPlist5 "NSLocalNetworkUsageDescription" = false ∧
    infoResBonjour (patchInfoPlist exPlist5) = some (.arr []) ∧
    infoResLhInsecure (patchInfoPlist exPlist5) = some (.b false) :=
  ⟨rfl, rfl, rfl⟩

/-- C5 amended: for a decodable plist lacking the usage key and the
Bonjour key, and whose transport-security path carries no pre-existing
`localhost` entry (mappings on the path), the patch completes with
`modified`, adds the usage description (non-empty), the two-element
Bonjour list, and a `localhost` exception allowing insecure HTTP loads. -/
theorem c5_absent_keys (p : PDict)
    (hu : dictHas p "NSLocalNetworkUsageDescription" = false)
    (hb : dictHas p "NSBonjourServices" = false)
    (hok : lhAbsentOk p = true) : ciKeysOkRes (patchInfoPlist p) :=
  patchInfoPlist_keys p hu hb hok

/-- C5 witness: the amended theorem at the empty mapping. -/
theorem c5_absent_keys_witness :
    (dictHas ([] : PDict) "NSLocalNetworkUsageDescription" = false ∧
     dictHas ([] : PDict) "NSBonjourServices" = false ∧
     lhAbsentOk ([] : PDict) = true) ∧
    ciKeysOkRes (patchInfoPlist []) :=
  ⟨⟨rfl, rfl, rfl⟩, c5_absent_keys [] rfl rfl rfl⟩

/-- C6: a plist whose decode fails is reported and skipped without any
write (`decodeSkipped`), and processing of the remaining files is
unaffected: the rest of the outcome list and the crash flag are exactly
those of the session without the failing file, so the failure never
aborts the session. -/
theorem c6_decode_skip (e : String) (fs : List (Except String PDict))
    (pbx : List (List Chars)) :
    processPlistFile (.error e) = .decodeSkipped ∧
    runPlists ((Except.error e) :: fs)
      = (FileOutcome.decodeSkipped :: (runPlists fs).1, (runPlists fs).2) ∧
    (mainRun pbx ((Except.error e) :: fs) = .crashed ↔ mainRun pbx fs = .crashed) := by
  refine ⟨rfl, rfl, ?_⟩
  unfold mainRun
  have h2 : (runPlists ((Except.error e : Except String PDict) :: fs)).2
      = (runPlists fs).2 := rfl
  rw [h2]
  cases hc : (runPlists fs).2 <;> simp

/-- C7: a descriptor line containing both `shellScript` and the marker
`tauri` (case-insensitively) is never deleted — the output has exactly one
line per input line — and is replaced by the no-op placeholder, whose
lower-cased text no longer contains the marker. -/
theorem c7_shell_neutralized (doc : List Chars) (l : Chars) (_hl : l ∈ doc)
    (ht : shellTrigger l = true) :
    ((patchPbxproj doc).newLines).length = doc.length ∧
    (patchPbxproj doc).newLines = doc.map patchLine ∧
    patchLine l = noopShellLine (pyLstripCount l) ∧
    hasSub (("tauri").toList) (lowerL (patchLine l)) = false := by
  have hp : patchLine l = noopShellLine (pyLstripCount l) := by
    unfold patchLine
    rw [patchLine_shell l ht]
  exact ⟨List.length_map doc patchLine, rfl, hp, hp ▸ noop_no_tauri _⟩

/-- C7 witness: the theorem at a concrete tauri shell-script line. -/
theorem c7_shell_neutralized_witness :
    (exShellLine ∈ [exShellLine] ∧ shellTrigger exShellLine = true) ∧
    (((patchPbxproj [exShellLine]).newLines).length = [exShellLine].length ∧
     (patchPbxproj [exShellLine]).newLines = [exShellLine].map patchLine ∧
     patchLine exShellLine = noopShellLine (pyLstripCount exShellLine) ∧
     hasSub (("tauri").toList) (lowerL (patchLine exShellLine)) = false) :=
  ⟨⟨by decide, by decide⟩,
   c7_shell_neutralized [exShellLine] exShellLine (by decide) (by decide)⟩

/-- C8 counterexample: a balanced descriptor whose tauri shell-script
line carries an opening brace inside the script string loses that brace
when the line is replaced by the no-op placeholder, so the output's
delimiter counts differ from the input's; no validation failure is ever
reported (`patch_pbxproj` performs no balance check). -/
theorem c8_balance_counterexample :
    List.count '\x7b' exBraceDoc.flatten = List.count '\x7d' exBraceDoc.flatten ∧
    List.count '\x7b' ((patchPbxproj exBraceDoc).newLines).flatten = 0 ∧
    List.count '\x7d' ((patchPbxproj exBraceDoc).newLines).flatten = 1 := by
  decide

/-- C8 amended: the seven literal signing replacements preserve the count
of opening and closing delimiters on every line (their patterns and
replacements contain none); balance can only be broken by the shell-script
or team rewrites, and `patch_pbxproj` performs no balance validation. -/
theorem c8_simple_rules_preserve_counts :
    ∀ l : Chars,
      List.count '\x7b' ((simpleStep l).1) = List.count '\x7b' l ∧
      List.count '\x7d' ((simpleStep l).1) = List.count '\x7d' l :=
  fun l =>
    ⟨simpleStep_count '\x7b' (by decide) l, simpleStep_count '\x7d' (by decide) l⟩

/-- C9 counterexample: on a document where no rule fires, `patch_pbxproj`
still performs a write (`wrote = true` unconditionally at src lines
57–58) even though `modified` is false and the content is unchanged. -/
theorem c9_always_writes_counterexample :
    (patchPbxproj exNoRuleDoc).wrote = true ∧
    (patchPbxproj exNoRuleDoc).modified = false ∧
    (patchPbxproj exNoRuleDoc).newLines = exNoRuleDoc := by
  decide

/-- C9 amended: `patch_info_plist` writes only when the mapping changed
(an unmodified run returns the input mapping and performs no write),
whereas `patch_pbxproj` always writes — though when no rule fired the
written lines are byte-identical to the input. -/
theorem c9_write_policy :
    (∀ p r : PDict, patchInfoPlist p = .ok r false →
       r = p ∧ infoWritten (patchInfoPlist p) = false) ∧
    (∀ doc : List Chars, (patchPbxproj doc).wrote = true ∧
       ((patchPbxproj doc).modified = false → (patchPbxproj doc).newLines = doc)) := by
  constructor
  · intro p r h
    refine ⟨patchInfoPlist_ok_false p r h, ?_⟩
    rw [h]
    rfl
  · intro doc
    refine ⟨rfl, fun hm => ?_⟩
    have hmm : doc.any (fun l => (patchLineM l).2) = false := hm
    show doc.map patchLine = doc
    have hall : ∀ l ∈ doc, (patchLineM l).2 = false := by
      intro l hl
      cases hx : (patchLineM l).2
      · rfl
      · have : doc.any (fun l => (patchLineM l).2) = true :=
          List.any_eq_true.mpr ⟨l, hl, hx⟩
        rw [this] at hmm
        exact Bool.noConfusion hmm
    have : doc.map patchLine = doc.map id := by
      apply List.map_congr_left
      intro l hl
      exact patchLineM_flag_false l (hall l hl)
    rw [this, List.map_id]

/-- C9 witness: the amended theorem at a fully configured plist (no
write) and at a rule-free descriptor document. -/
theorem c9_write_policy_witness :
    patchInfoPlist exPlistDone = .ok exPlistDone false ∧
    (exPlistDone = exPlistDone ∧ infoWritten (patchInfoPlist exPlistDone) = false) ∧
    ((patchPbxproj exPlainDoc).wrote = true ∧
     ((patchPbxproj exPlainDoc).modified = false →
        (patchPbxproj exPlainDoc).newLines = exPlainDoc)) :=
  ⟨rfl, c9_write_policy.1 exPlistDone exPlistDone rfl, c9_write_policy.2 exPlainDoc⟩

/-- C10 counterexample: when `NSAllowsLocalNetworking` is already present
with the truthy non-boolean value "YES", the adapter leaves it untouched,
so the output value is not the boolean True. -/
theorem c10_truthy_counterexample :
    infoResAllows (patchInfoPlist exPlist10) = some (.s "YES") ∧
    some (PValue.s "YES") ≠ some (PValue.b true) :=
  ⟨rfl, fun h => PValue.noConfusion (Option.some.inj h)⟩

/-- C10 amended: after every completed patch the output's
`NSAllowsLocalNetworking` exists and is Python-truthy; it equals the
boolean True whenever the input's value was absent or falsy (in
particular an explicit False is overridden), while a pre-existing truthy
value is left as it was. -/
theorem c10_allows_truthy (p r : PDict) (mf : Bool) (h : patchInfoPlist p = .ok r mf) :
    allowsTruthy r ∧
    (allowsAbsentOrFalsy p = true → atsAllows r = some (.b true)) :=
  patchInfoPlist_allows p r mf h

/-- C10 witness: the amended theorem at the empty plist. -/
theorem c10_allows_truthy_witness :
    patchInfoPlist [] = .ok exPatchedEmpty true ∧
    (allowsTruthy exPatchedEmpty ∧
     (allowsAbsentOrFalsy [] = true → atsAllows exPatchedEmpty = some (.b true))) :=
  ⟨rfl, c10_allows_truthy [] exPatchedEmpty true rfl⟩
